/-
Verification of the bongo-farmers storefront's pure logic layer against its
natural-language specification.

The repository's logic is embedded shallowly:
* monetary amounts and weights are modelled as rationals (the source's
  JavaScript numbers; all constants and operations used by the claims are
  exact decimal arithmetic, so ℚ is faithful on the claim inputs);
* loosely-typed Firestore records become structures with `Option` fields;
* the Firestore collaborator becomes an explicit `String → Except Unit Bool`
  argument (a query either errors or reports snapshot emptiness);
* the order-collection state machine becomes a list of records with an
  explicit operation type.

Sources embedded: `src/components/OrderModal.tsx` (pricing calculator),
`src/pages/admin/Orders.tsx` (`toCsv`, `computeOrderWeightKg`, order status
operations), `src/pages/admin/Products.tsx` (`toCsv`, `slugify`),
`src/pages/admin/AddProduct.tsx` (`slugify`, `checkSlugExists`,
`handleSuggestSlug`).
-/
import Mathlib

namespace BongoFarmers

/-! ## Order pricing calculator (`src/components/OrderModal.tsx`, lines 49-57)

The modal computes, from the product's per-kg price, the selected unit size
("500g" | "1kg"), the quantity and the delivery zone ("inside" | "outside"):
`unitKg`, `unitPrice`, `itemsTotal`, `deliveryFee`, `grandTotal`,
`totalWeightKg`. -/

inductive UnitSize where
  | half500g
  | whole1kg
deriving DecidableEq, Repr

inductive DeliveryZone where
  | inside
  | outside
deriving DecidableEq, Repr

/-- `const unitKg = unitSize === "500g" ? 0.5 : 1;` -/
def unitKg : UnitSize → ℚ
  | .half500g => 1/2
  | .whole1kg => 1

/-- `const deliveryFee = deliveryType === "inside" ? 80 : 120;` -/
def deliveryFeeOf : DeliveryZone → ℚ
  | .inside => 80
  | .outside => 120

structure OrderCalc where
  unitPrice : ℚ
  itemsTotal : ℚ
  deliveryFee : ℚ
  grandTotal : ℚ
  totalWeightKg : ℚ
deriving DecidableEq, Repr

/-- The derived fields of `OrderModal` (lines 49-56):
`unitPrice = pricePerKg * unitKg`, `itemsTotal = unitPrice * quantity`,
`grandTotal = itemsTotal + deliveryFee`, `totalWeightKg = unitKg * quantity`. -/
def orderCalc (pricePerKg : ℚ) (u : UnitSize) (quantity : ℕ) (z : DeliveryZone) :
    OrderCalc :=
  let unitPrice := pricePerKg * unitKg u
  let itemsTotal := unitPrice * quantity
  let deliveryFee := deliveryFeeOf z
  { unitPrice := unitPrice
    itemsTotal := itemsTotal
    deliveryFee := deliveryFee
    grandTotal := itemsTotal + deliveryFee
    totalWeightKg := unitKg u * quantity }

/-! ## Defensive weight derivation (`src/pages/admin/Orders.tsx`,
`computeOrderWeightKg`, lines 28-64)

The ingestion path derives a total weight in kg from loosely-typed order
records via a fallback chain: explicit `unitWeightKg`, then ambiguous
numeric `unitWeight` (`< 10` ⇒ kg, `≥ 10` ⇒ grams, but only when positive),
then a free-text `weightLabel` matched against `([\d.,]+)\s*(kg|g)?`, then
1 kg per item. -/

/-- JavaScript's `\s` character class, which is also the whitespace set of
`String.prototype.trim`: space, tab, LF, VT, FF, CR, NBSP, Ogham space
mark, U+2000–U+200A, LS, PS, NNBSP, MMSP, ideographic space and the BOM. -/
def isJsSpace (c : Char) : Bool :=
  let n := c.toNat
  n = 32 || n = 9 || n = 10 || n = 11 || n = 12 || n = 13 ||
  n = 160 || n = 5760 || (8192 ≤ n && n ≤ 8202) || n = 8232 ||
  n = 8233 || n = 8239 || n = 8287 || n = 12288 || n = 65279

/-- JavaScript `String.prototype.toLowerCase`, modelled on the ASCII and
Latin-1 ranges (the only ranges the claims exercise): `A`–`Z` and `À`–`Þ`
(except the multiplication sign) map to their lowercase forms 32 code
points up; every other character is left unchanged. -/
def jsToLower (c : Char) : Char :=
  if 65 ≤ c.toNat ∧ c.toNat ≤ 90 then Char.ofNat (c.toNat + 32)
  else if 192 ≤ c.toNat ∧ c.toNat ≤ 222 ∧ c.toNat ≠ 215 then
    Char.ofNat (c.toNat + 32)
  else c

/-- Value of a digit string read in base 10. -/
def digitsVal (l : List Char) : ℕ :=
  l.foldl (fun acc c => 10 * acc + (c.toNat - '0'.toNat)) 0

/-- JavaScript `parseFloat` restricted to the alphabet `[0-9.,]` that the
weight-label regex can produce: the longest prefix of the form
`digits ['.' digits]` or `'.' digits` is parsed; an empty prefix (or a bare
dot or comma) yields NaN, modelled as `none`.  A comma stops the parse, as
it does in JS. -/
def jsParseFloat (l : List Char) : Option ℚ :=
  let intDigits := l.takeWhile Char.isDigit
  let rest := l.dropWhile Char.isDigit
  match rest with
  | '.' :: rest' =>
      let fracDigits := rest'.takeWhile Char.isDigit
      if intDigits = [] ∧ fracDigits = [] then none
      else some ((digitsVal intDigits : ℚ) +
        (digitsVal fracDigits : ℚ) / 10 ^ fracDigits.length)
  | _ => if intDigits = [] then none else some (digitsVal intDigits)

/-- `m[1].replace(",", ".")`: replace the first comma with a dot. -/
def replaceFirstComma : List Char → List Char
  | [] => []
  | c :: cs => if c = ',' then '.' :: cs else c :: replaceFirstComma cs

def isDigitDotComma (c : Char) : Bool := c.isDigit || c = '.' || c = ','

/-- First match of `/([\d.,]+)\s*(kg|g)?/` on an already-lowercased label:
the first maximal run of `[\d.,]` characters, and the unit suffix found
after skipping whitespace (`"kg"`, `"g"`, or `""`); `none` when the label
has no `[\d.,]` character at all. -/
def matchWeightLabel : List Char → Option (List Char × String)
  | [] => none
  | c :: cs =>
    if isDigitDotComma c then
      let run := (c :: cs).takeWhile isDigitDotComma
      let rest := ((c :: cs).dropWhile isDigitDotComma).dropWhile isJsSpace
      let unit : String :=
        match rest with
        | 'k' :: 'g' :: _ => "kg"
        | 'g' :: _ => "g"
        | _ => ""
      some (run, unit)
    else matchWeightLabel cs

/-- A loosely-typed persisted order record as `computeOrderWeightKg` reads
it: `quantity` is `Number(order.quantity || 0)`, the three weight
representations are numeric-or-absent / string-or-absent. -/
structure OrderRec where
  quantity : ℚ
  unitWeightKg : Option ℚ
  unitWeight : Option ℚ
  weightLabel : Option String

/-- Rules 3 and 4 of the chain (`Orders.tsx` lines 47-63): parse the
free-text label; on a missing, falsy or unparseable label assume 1 kg per
item. -/
def weightFromLabel (label : Option String) (qty : ℚ) : ℚ :=
  match label with
  | some lbl =>
    if lbl = "" then 1 * qty
    else
      match matchWeightLabel (lbl.data.map jsToLower) with
      | none => 1 * qty
      | some (run, unit) =>
        match jsParseFloat (replaceFirstComma run) with
        | none => 1 * qty
        | some num =>
          if unit = "kg" then num * qty
          else if unit = "g" then (num / 1000) * qty
          else if num < 10 then num * qty else (num / 1000) * qty
  | none => 1 * qty

/-- `computeOrderWeightKg` (`Orders.tsx` lines 28-64).  Note the source
guards rule 2 with `uw > 0`: a non-positive ambiguous weight falls through
to the label rule. -/
def computeOrderWeightKg (o : OrderRec) : ℚ :=
  let qty := o.quantity
  if qty ≤ 0 then 0
  else
    match o.unitWeightKg with
    | some w => w * qty
    | none =>
      match o.unitWeight with
      | some uw =>
        if 0 < uw ∧ uw < 10 then uw * qty
        else if 0 < uw then (uw / 1000) * qty
        else weightFromLabel o.weightLabel qty
      | none => weightFromLabel o.weightLabel qty

/-! ## Slug generation

The repository has two slug generators:
* `slugify` in `src/pages/admin/AddProduct.tsx` (lines 29-40): trim,
  lowercase, NFD-normalize and strip combining marks, drop characters
  outside `[a-z0-9\s-]`, turn whitespace runs into hyphens, collapse hyphen
  runs, trim leading/trailing hyphens;
* `slugify` in `src/pages/admin/Products.tsx` (lines 434-444, the "Auto"
  button): trim, lowercase, turn whitespace runs into hyphens, drop
  characters outside `[\w-]` (which keeps underscores), collapse hyphen
  runs, trim leading/trailing hyphens.

Unicode case mapping and NFD are modelled on the ASCII and Latin-1 ranges
(`jsToLower`, `stripDiacriticLatin1`); every claim-relevant input lies in
those ranges, and the shape theorems below hold for arbitrary inputs under
this model because the character filters run after the Unicode stages. -/

/-- `String.prototype.trim`: drop JS whitespace from both ends. -/
def trimChars (l : List Char) : List Char :=
  ((l.dropWhile isJsSpace).reverse.dropWhile isJsSpace).reverse

/-- The combining-mark range `[̀-ͯ]` removed after NFD. -/
def isCombiningMark (c : Char) : Bool :=
  decide (768 ≤ c.toNat) && decide (c.toNat ≤ 879)

/-- Effect of NFD-decomposition followed by combining-mark removal on a
single precomposed character, modelled on the lowercase Latin-1 letters
(the pipeline lowercases first); letters without a canonical decomposition
(`æ ð ø þ ß`) are correctly left unchanged. -/
def stripDiacriticLatin1 (c : Char) : Char :=
  if 224 ≤ c.toNat ∧ c.toNat ≤ 229 then 'a'
  else if c.toNat = 231 then 'c'
  else if 232 ≤ c.toNat ∧ c.toNat ≤ 235 then 'e'
  else if 236 ≤ c.toNat ∧ c.toNat ≤ 239 then 'i'
  else if c.toNat = 241 then 'n'
  else if 242 ≤ c.toNat ∧ c.toNat ≤ 246 then 'o'
  else if 249 ≤ c.toNat ∧ c.toNat ≤ 252 then 'u'
  else if c.toNat = 253 ∨ c.toNat = 255 then 'y'
  else c

/-- `.normalize("NFD").replace(/[̀-ͯ]/g, "")`. -/
def nfdStrip (l : List Char) : List Char :=
  (l.map stripDiacriticLatin1).filter (fun c => !isCombiningMark c)

/-- The character class kept by `.replace(/[^a-z0-9\s-]/g, "")`. -/
def isSlugKeep (c : Char) : Bool :=
  c.isLower || c.isDigit || isJsSpace c || c == '-'

def isHyphen (c : Char) : Bool := c == '-'

/-- Replace every maximal run of characters satisfying `p` by the single
character `r` (the effect of `.replace(/p+/g, r)` for a character class
`p`); the Boolean records whether the previous character was in a run. -/
def collapseRunsAux (p : Char → Bool) (r : Char) : Bool → List Char → List Char
  | _, [] => []
  | prev, c :: cs =>
    if p c then
      if prev then collapseRunsAux p r true cs
      else r :: collapseRunsAux p r true cs
    else c :: collapseRunsAux p r false cs

def collapseRuns (p : Char → Bool) (r : Char) (l : List Char) : List Char :=
  collapseRunsAux p r false l

/-- Drop the trailing run of characters satisfying `p` (the effect of
`.replace(/p+$/, "")`). -/
def dropTrailing (p : Char → Bool) : List Char → List Char
  | [] => []
  | c :: cs =>
    let r := dropTrailing p cs
    if r = [] ∧ p c then [] else c :: r

/-- `.replace(/^-+|-+$/g, "")` (AddProduct) and the equivalent
the equivalent pair of replacements `^-+` then `-+$` (Products). -/
def trimHyphens (l : List Char) : List Char :=
  dropTrailing isHyphen (l.dropWhile isHyphen)

/-- The Unicode-independent tail of the AddProduct pipeline, from the
character filter on. -/
def slugCore (l : List Char) : List Char :=
  trimHyphens (collapseRuns isHyphen '-'
    (collapseRuns isJsSpace '-' (l.filter isSlugKeep)))

/-- `slugify` from `src/pages/admin/AddProduct.tsx`, lines 29-40. -/
def slugify (s : String) : String :=
  ⟨slugCore (nfdStrip ((trimChars s.data).map jsToLower))⟩

/-- The character class kept by `.replace(/[^\w\-]+/g, "")`: JS `\w` is
`[A-Za-z0-9_]`. -/
def isWordOrHyphen (c : Char) : Bool :=
  c.isLower || c.isUpper || c.isDigit || c == '_' || c == '-'

/-- `slugify` from `src/pages/admin/Products.tsx`, lines 434-444 (the
admin "Auto" slug generator); note its filter runs after the whitespace
replacement and keeps underscores, and there is no NFD stage. -/
def adminSlugify (s : String) : String :=
  ⟨trimHyphens (collapseRuns isHyphen '-'
    ((collapseRuns isJsSpace '-' ((trimChars s.data).map jsToLower)).filter
      isWordOrHyphen))⟩

/-- Specification-side character class for slug output: lowercase ASCII
letters, digits, hyphens. -/
def isSlugChar (c : Char) : Bool := c.isLower || c.isDigit || c == '-'

/-- Character class the admin generator actually produces (underscores
included). -/
def isAdminSlugChar (c : Char) : Bool :=
  c.isLower || c.isDigit || c == '-' || c == '_'

/-- No two consecutive hyphens. -/
def noDoubleHyphen : List Char → Bool
  | [] => true
  | [_] => true
  | a :: b :: rest => !(a == '-' && b == '-') && noDoubleHyphen (b :: rest)

/-- The shape the specification demands of a slug: every character in
`charOk`, no `--`, no leading or trailing hyphen. -/
def slugShape (charOk : Char → Bool) (s : String) : Bool :=
  s.data.all charOk && noDoubleHyphen s.data &&
  s.data.head? != some '-' && s.data.getLast? != some '-'

/-! ## Slug existence check and suggestion
(`src/pages/admin/AddProduct.tsx`, lines 42-53 and 204-235)

The Firestore collaborator is modelled as a function from the queried slug
to `Except Unit Bool`: `.ok e` is a successful query whose snapshot
emptiness is `e`, `.error ()` a query that throws. -/

/-- `checkSlugExists`: empty slug short-circuits to `false` with no query;
otherwise the query's emptiness is negated, and a thrown query is mapped
to `true` ("assume taken on error to be safe").  Returns the reported
existence together with whether a query was issued. -/
def checkSlugExists (fetch : String → Except Unit Bool) (slug : String) :
    Bool × Bool :=
  if slug = "" then (false, false)
  else
    match fetch slug with
    | .ok isEmpty => (!isEmpty, true)
    | .error _ => (true, true)

/-- The `while (true)` loop of `handleSuggestSlug` (lines 213-229), given
explicit fuel: each iteration checks the current candidate, returns it if
free, otherwise increments `attempt`, moves to `base-attempt`, and once
`attempt > 12` to the timestamp-suffixed `base-ts` instead.  The source
loop has no exit other than a free candidate; `none` means the fuel ran
out with the loop still running. -/
def suggestLoop (fetch : String → Except Unit Bool) (base ts : String) :
    ℕ → String → ℕ → Option String
  | 0, _, _ => none
  | fuel + 1, candidate, attempt =>
    if (checkSlugExists fetch candidate).1 = false then some candidate
    else
      let attempt' := attempt + 1
      let candidate' := base ++ "-" ++ toString attempt'
      let candidate'' := if attempt' > 12 then base ++ "-" ++ ts else candidate'
      suggestLoop fetch base ts fuel candidate'' attempt'

/-- `handleSuggestSlug` (lines 204-235): slugify `title || "product"`,
give up on an empty base, else run the loop from the base with
`attempt = 0`.  `ts` abstracts `Date.now().toString(36).slice(-6)`. -/
def handleSuggestSlug (fetch : String → Except Unit Bool) (title ts : String)
    (fuel : ℕ) : Option String :=
  let base := slugify (if title = "" then "product" else title)
  if base = "" then none
  else suggestLoop fetch base ts fuel base 0

/-! ## CSV export (`src/pages/admin/Orders.tsx` lines 7-19 and
`src/pages/admin/Products.tsx` lines 419-432)

Record field access `r[c] ?? ""` followed by `String(v)` is modelled by
giving each row as a total function from column name to value; the
products export additionally joins array values with `"|"`. -/

/-- `String(v).replace(/"/g, '""')`: double every double quote. -/
def escQuotes : List Char → List Char
  | [] => []
  | c :: cs => if c = '"' then '"' :: '"' :: escQuotes cs else c :: escQuotes cs

/-- `` `"${...}"` ``: wrap the escaped value in double quotes. -/
def csvQuote (s : String) : String := ⟨'"' :: (escQuotes s.data ++ ['"'])⟩

def ordersCsvCols : List String :=
  ["id", "productTitle", "quantity", "totalWeightKg", "unitPrice",
   "grandTotal", "name", "phone", "address", "status", "createdAt"]

/-- One emitted field of the orders export. -/
def ordersCsvField (r : String → String) (c : String) : String := csvQuote (r c)

/-- `toCsv` from `Orders.tsx`. -/
def ordersToCsv (rows : List (String → String)) : String :=
  let header := String.intercalate "," ordersCsvCols
  let lines := rows.map fun r =>
    String.intercalate "," (ordersCsvCols.map (ordersCsvField r))
  String.intercalate "\n" (header :: lines)

/-- A products-export cell: `Array.isArray(v)` distinguishes the images
array from plain values. -/
inductive CsvVal where
  | str (s : String)
  | arr (xs : List String)

def csvValString : CsvVal → String
  | .str s => s
  | .arr xs => String.intercalate "|" xs

def productsCsvCols : List String :=
  ["id", "slug", "title", "price", "regularPrice", "images", "category"]

/-- One emitted field of the products export. -/
def productsCsvField (r : String → CsvVal) (c : String) : String :=
  csvQuote (csvValString (r c))

/-- `toCsv` from `Products.tsx`. -/
def productsToCsv (rows : List (String → CsvVal)) : String :=
  let header := String.intercalate "," productsCsvCols
  let lines := rows.map fun r =>
    String.intercalate "," (productsCsvCols.map (productsCsvField r))
  String.intercalate "\n" (header :: lines)

/-- A field is well-quoted when it starts with `"`, ends with `"`, and
every interior quote occurs as part of an adjacent doubled pair. -/
def quotedInner : List Char → Bool
  | [] => false
  | [c] => c == '"'
  | c :: c' :: rest =>
    if c == '"' then
      if c' == '"' then quotedInner rest else false
    else quotedInner (c' :: rest)

def quotedOk (s : String) : Bool :=
  match s.data with
  | '"' :: rest => quotedInner rest
  | _ => false

/-! ## Order status lifecycle

`OrderModal.handleSubmit` creates each order with `status: "pending"`
(`OrderModal.tsx` line 116); `confirmOrder` and `bulkConfirm`
(`Orders.tsx` lines 106-117, 141-160) write `status: "confirmed"`;
`deleteOrder`/`bulkDelete` remove records.  No other operation writes the
status field. -/

structure OrderDoc where
  id : ℕ
  status : String
deriving DecidableEq, Repr

inductive OrderOp where
  | create (id : ℕ)
  | confirm (id : ℕ)
  | bulkConfirm (ids : List ℕ)
  | delete (id : ℕ)

/-- `updateDoc(doc(db, "orders", id), { status: "confirmed" })`. -/
def confirmOne (s : List OrderDoc) (i : ℕ) : List OrderDoc :=
  s.map fun o => if o.id = i then { o with status := "confirmed" } else o

def applyOp (s : List OrderDoc) : OrderOp → List OrderDoc
  | .create i => s ++ [{ id := i, status := "pending" }]
  | .confirm i => confirmOne s i
  | .bulkConfirm ids => ids.foldl confirmOne s
  | .delete i => s.filter fun o => o.id != i

/-- The order collection reachable from empty by a sequence of UI
operations. -/
def runOps (ops : List OrderOp) : List OrderDoc :=
  ops.foldl applyOp []

def statusOk (o : OrderDoc) : Bool :=
  o.status == "pending" || o.status == "confirmed"

end BongoFarmers

namespace BongoFarmers

/-- C1: for every price ≥ 0, quantity ≥ 1, unit size and delivery zone, the
order calculator satisfies `unitPrice = pricePerUnit * unitFraction`,
`itemsTotal = unitPrice * quantity`, `deliveryFee = 80` inside / `120`
outside, `grandTotal = itemsTotal + deliveryFee`,
`totalWeight = unitFraction * quantity`; and the concrete scenario
`pricePerUnit = 500`, unit 500g, quantity 3, zone inside yields
`unitPrice = 250`, `itemsTotal = 750`, `deliveryFee = 80`,
`grandTotal = 830`. -/
theorem orderCalc_spec (p : ℚ) (q : ℕ) (u : UnitSize) (z : DeliveryZone)
    (hp : 0 ≤ p) (hq : 1 ≤ q) :
    (orderCalc p u q z).unitPrice = p * unitKg u ∧
    (orderCalc p u q z).itemsTotal = (orderCalc p u q z).unitPrice * q ∧
    (orderCalc p u q z).deliveryFee = (if z = .inside then 80 else 120) ∧
    (orderCalc p u q z).grandTotal =
      (orderCalc p u q z).itemsTotal + (orderCalc p u q z).deliveryFee ∧
    (orderCalc p u q z).totalWeightKg = unitKg u * q ∧
    orderCalc 500 .half500g 3 .inside =
      { unitPrice := 250, itemsTotal := 750, deliveryFee := 80,
        grandTotal := 830, totalWeightKg := 3/2 } := by
  refine ⟨rfl, rfl, ?_, rfl, rfl, ?_⟩
  · cases z <;> simp [orderCalc, deliveryFeeOf]
  · simp only [orderCalc, unitKg, deliveryFeeOf, OrderCalc.mk.injEq]
    norm_num

/-- Witness for `orderCalc_spec` at `p = 500`, `q = 3`, unit 500g, zone
inside. -/
theorem orderCalc_spec_witness :
    (0 ≤ (500 : ℚ) ∧ 1 ≤ (3 : ℕ)) ∧
    ((orderCalc 500 .half500g 3 .inside).unitPrice = 500 * unitKg .half500g ∧
     (orderCalc 500 .half500g 3 .inside).itemsTotal =
       (orderCalc 500 .half500g 3 .inside).unitPrice * (3 : ℕ) ∧
     (orderCalc 500 .half500g 3 .inside).deliveryFee =
       (if (DeliveryZone.inside = .inside) then 80 else 120) ∧
     (orderCalc 500 .half500g 3 .inside).grandTotal =
       (orderCalc 500 .half500g 3 .inside).itemsTotal +
         (orderCalc 500 .half500g 3 .inside).deliveryFee ∧
     (orderCalc 500 .half500g 3 .inside).totalWeightKg =
       unitKg .half500g * (3 : ℕ) ∧
     orderCalc 500 .half500g 3 .inside =
       { unitPrice := 250, itemsTotal := 750, deliveryFee := 80,
         grandTotal := 830, totalWeightKg := 3/2 }) :=
  ⟨⟨by norm_num, by norm_num⟩,
    orderCalc_spec 500 3 .half500g .inside (by norm_num) (by norm_num)⟩

/-- C2 (counterexample): the claim predicts `w * q` for every numeric
ambiguous weight `w < 10`, including `w = 0`; but on a record with
`unitWeight = 0`, `quantity = 1` and no other weight information the code
skips rule 2 (its guard is `uw > 0`) and falls back to 1 kg per item,
returning `1`, not `0 * 1 = 0`. -/
theorem computeOrderWeightKg_zero_counterexample :
    computeOrderWeightKg
      { quantity := 1, unitWeightKg := none, unitWeight := some 0,
        weightLabel := none } = 1 ∧
    (1 : ℚ) ≠ 0 * 1 := by
  constructor
  · simp [computeOrderWeightKg, weightFromLabel]
  · norm_num

/-- C2 (amended): for a record with no explicit kg weight and a numeric
ambiguous unit weight `w`, the derivation returns `w * q` when
`0 < w < 10` and `(w / 1000) * q` when `w ≥ 10` — the positive-`w` result
is independent of any weight label; when `w ≤ 0` the ambiguous rule is
skipped and, with no label, the 1-kg-per-item fallback yields `q`. -/
theorem computeOrderWeightKg_ambiguous (w q : ℚ) (hq : 1 ≤ q) :
    (0 < w → ∀ lbl,
      computeOrderWeightKg
        { quantity := q, unitWeightKg := none, unitWeight := some w,
          weightLabel := lbl } =
        if w < 10 then w * q else (w / 1000) * q) ∧
    (w ≤ 0 →
      computeOrderWeightKg
        { quantity := q, unitWeightKg := none, unitWeight := some w,
          weightLabel := none } = q) := by
  have hq0 : ¬ q ≤ 0 := by linarith
  constructor
  · intro hw lbl
    by_cases hlt : w < 10
    · simp [computeOrderWeightKg, hq0, hw, hlt]
    · simp [computeOrderWeightKg, hq0, hw, hlt]
  · intro hw
    have h1 : ¬ (0 < w ∧ w < 10) := by rintro ⟨h, _⟩; linarith
    have h2 : ¬ 0 < w := by linarith
    simp [computeOrderWeightKg, hq0, h1, h2, weightFromLabel]

/-- Witness for `computeOrderWeightKg_ambiguous` at `w = 9.99`, `q = 3`:
`9.99` is below the threshold, so the result is `9.99 * 3`. -/
theorem computeOrderWeightKg_ambiguous_witness :
    computeOrderWeightKg
      { quantity := 3, unitWeightKg := none, unitWeight := some (999/100),
        weightLabel := none } = (999/100) * 3 := by
  have h := (computeOrderWeightKg_ambiguous (999/100) 3 (by norm_num)).1
    (by norm_num) none
  rw [h]
  norm_num

/-- C4: the fallback chain gives rule 1 absolute precedence: for every
record carrying an explicit per-item kg weight `w`, the result is `w * q`
whatever the ambiguous weight or label hold; a positive ambiguous weight
(rule 2) likewise makes the result independent of the label (rule 3); and
with no weight information at all, rule 4 assumes 1 kg per item. -/
theorem computeOrderWeightKg_chain (w q : ℚ) (hq : 0 ≤ q) :
    (∀ uw lbl,
      computeOrderWeightKg
        { quantity := q, unitWeightKg := some w, unitWeight := uw,
          weightLabel := lbl } = w * q) ∧
    (∀ u lbl, 0 < u →
      computeOrderWeightKg
        { quantity := q, unitWeightKg := none, unitWeight := some u,
          weightLabel := lbl } =
      computeOrderWeightKg
        { quantity := q, unitWeightKg := none, unitWeight := some u,
          weightLabel := none }) ∧
    computeOrderWeightKg
      { quantity := q, unitWeightKg := none, unitWeight := none,
        weightLabel := none } = q := by
  by_cases hq0 : q ≤ 0
  · have hq' : q = 0 := le_antisymm hq0 hq
    subst hq'
    refine ⟨fun uw lbl => ?_, fun u lbl hu => ?_, ?_⟩ <;>
      simp [computeOrderWeightKg]
  · refine ⟨fun uw lbl => ?_, fun u lbl hu => ?_, ?_⟩
    · simp [computeOrderWeightKg, hq0]
    · by_cases hlt : u < 10 <;> simp [computeOrderWeightKg, hq0, hu, hlt]
    · simp [computeOrderWeightKg, hq0, weightFromLabel]

/-- Witness for `computeOrderWeightKg_chain` at `w = 2`, `q = 3`, with a
conflicting ambiguous weight `500` present: the explicit field wins and
the result is `2 * 3`. -/
theorem computeOrderWeightKg_chain_witness :
    computeOrderWeightKg
      { quantity := 3, unitWeightKg := some 2, unitWeight := some 500,
        weightLabel := none } = 2 * 3 :=
  (computeOrderWeightKg_chain 2 3 (by norm_num)).1 (some 500) none

/-! ### Character-level facts about the slug pipeline -/

theorem char_toNat_inj {a b : Char} (h : a.toNat = b.toNat) : a = b :=
  Char.ext (UInt32.ext h)

theorem toNat_ofNat_of_lt {n : ℕ} (h : n < 55296) :
    (Char.ofNat n).toNat = n := by
  have hv : n.isValidChar := Or.inl h
  rw [Char.ofNat, dif_pos hv]
  rfl

/-- `isSlugChar` membership in terms of code points. -/
theorem isSlugChar_toNat {c : Char} (h : isSlugChar c = true) :
    c.toNat = 45 ∨ (48 ≤ c.toNat ∧ c.toNat ≤ 57) ∨
      (97 ≤ c.toNat ∧ c.toNat ≤ 122) := by
  simp only [isSlugChar, Char.isLower, Char.isDigit, Bool.or_eq_true,
    Bool.and_eq_true, decide_eq_true_eq, beq_iff_eq] at h
  rcases h with (h | h) | h
  · exact Or.inr (Or.inr ⟨h.1, h.2⟩)
  · exact Or.inr (Or.inl ⟨h.1, h.2⟩)
  · subst h; left; rfl

theorem isJsSpace_eq_false_of_isSlugChar {c : Char} (h : isSlugChar c = true) :
    isJsSpace c = false := by
  have hb := isSlugChar_toNat h
  cases hjs : isJsSpace c
  · rfl
  · exfalso
    simp only [isJsSpace, Bool.or_eq_true, Bool.and_eq_true,
      decide_eq_true_eq] at hjs
    omega

theorem jsToLower_fixed {c : Char} (h : isSlugChar c = true) :
    jsToLower c = c := by
  have hb := isSlugChar_toNat h
  unfold jsToLower
  rw [if_neg, if_neg]
  · rintro ⟨h1, h2, -⟩; omega
  · rintro ⟨h1, h2⟩; omega

theorem stripDiacriticLatin1_fixed {c : Char} (h : isSlugChar c = true) :
    stripDiacriticLatin1 c = c := by
  have hb := isSlugChar_toNat h
  unfold stripDiacriticLatin1
  rw [if_neg, if_neg, if_neg, if_neg, if_neg, if_neg, if_neg, if_neg]
  · rintro (h1 | h1) <;> omega
  · rintro ⟨h1, h2⟩; omega
  · rintro ⟨h1, h2⟩; omega
  · intro h1; omega
  · rintro ⟨h1, h2⟩; omega
  · rintro ⟨h1, h2⟩; omega
  · intro h1; omega
  · rintro ⟨h1, h2⟩; omega

theorem isCombiningMark_eq_false_of_isSlugChar {c : Char}
    (h : isSlugChar c = true) : isCombiningMark c = false := by
  have hb := isSlugChar_toNat h
  simp only [isCombiningMark, Bool.and_eq_false_iff, decide_eq_false_iff_not]
  omega

theorem isSlugKeep_of_isSlugChar {c : Char} (h : isSlugChar c = true) :
    isSlugKeep c = true := by
  simp only [isSlugChar, Bool.or_eq_true] at h
  simp only [isSlugKeep, Bool.or_eq_true]
  rcases h with h | h
  · exact Or.inl (Or.inl h)
  · exact Or.inr h

theorem isUpper_eq_false_of_toNat {c : Char}
    (h : ¬(65 ≤ c.toNat ∧ c.toNat ≤ 90)) : c.isUpper = false := by
  cases hu : c.isUpper
  · rfl
  · exfalso
    apply h
    simp only [Char.isUpper, Bool.and_eq_true, decide_eq_true_eq] at hu
    exact ⟨hu.1, hu.2⟩

/-- Lowercasing never produces an ASCII uppercase letter. -/
theorem jsToLower_not_upper (c : Char) : (jsToLower c).isUpper = false := by
  unfold jsToLower
  split_ifs with h1 h2
  · have hn : (Char.ofNat (c.toNat + 32)).toNat = c.toNat + 32 :=
      toNat_ofNat_of_lt (by omega)
    exact isUpper_eq_false_of_toNat (by rw [hn]; omega)
  · have hn : (Char.ofNat (c.toNat + 32)).toNat = c.toNat + 32 :=
      toNat_ofNat_of_lt (by omega)
    exact isUpper_eq_false_of_toNat (by rw [hn]; omega)
  · exact isUpper_eq_false_of_toNat h1

/-- A `\w`-or-hyphen character that is not uppercase is in the admin slug
character class. -/
theorem isAdminSlugChar_of_isWordOrHyphen {c : Char}
    (hw : isWordOrHyphen c = true) (hu : c.isUpper = false) :
    isAdminSlugChar c = true := by
  simp only [isWordOrHyphen, Bool.or_eq_true] at hw
  simp only [isAdminSlugChar, Bool.or_eq_true]
  rcases hw with (((h | h) | h) | h) | h
  · exact Or.inl (Or.inl (Or.inl h))
  · rw [hu] at h; exact absurd h (by decide)
  · exact Or.inl (Or.inl (Or.inr h))
  · exact Or.inr h
  · exact Or.inl (Or.inr h)

/-! ### List-level lemmas about run collapsing and trimming -/

theorem mem_of_mem_dropWhile {q : Char → Bool} {l : List Char} {c : Char}
    (h : c ∈ l.dropWhile q) : c ∈ l := by
  induction l with
  | nil => simpa using h
  | cons d ds ih =>
    rw [List.dropWhile_cons] at h
    split at h
    · exact List.mem_cons_of_mem d (ih h)
    · exact h

theorem mem_collapseRunsAux {p : Char → Bool} {r : Char} :
    ∀ (l : List Char) (prev : Bool) (c : Char),
      c ∈ collapseRunsAux p r prev l → c = r ∨ (c ∈ l ∧ p c = false)
  | [], _, c, h => by simp [collapseRunsAux] at h
  | d :: ds, prev, c, h => by
    by_cases hd : p d = true
    · cases prev with
      | true =>
        have h' : c ∈ collapseRunsAux p r true ds := by
          simpa [collapseRunsAux, hd] using h
        rcases mem_collapseRunsAux ds true c h' with h'' | ⟨hm, hp⟩
        · exact Or.inl h''
        · exact Or.inr ⟨List.mem_cons_of_mem d hm, hp⟩
      | false =>
        rw [collapseRunsAux, if_pos hd, if_neg (by simp)] at h
        rcases List.mem_cons.mp h with h' | h'
        · exact Or.inl h'
        · rcases mem_collapseRunsAux ds true c h' with h'' | ⟨hm, hp⟩
          · exact Or.inl h''
          · exact Or.inr ⟨List.mem_cons_of_mem d hm, hp⟩
    · rw [collapseRunsAux, if_neg hd] at h
      rcases List.mem_cons.mp h with h' | h'
      · subst h'
        exact Or.inr ⟨List.mem_cons_self _ _, by simpa using hd⟩
      · rcases mem_collapseRunsAux ds false c h' with h'' | ⟨hm, hp⟩
        · exact Or.inl h''
        · exact Or.inr ⟨List.mem_cons_of_mem d hm, hp⟩

theorem noDoubleHyphen_tail {a : Char} {l : List Char}
    (h : noDoubleHyphen (a :: l) = true) : noDoubleHyphen l = true := by
  cases l with
  | nil => rfl
  | cons b t =>
    simp only [noDoubleHyphen, Bool.and_eq_true] at h
    exact h.2

theorem noDoubleHyphen_cons_of {a : Char} {l : List Char}
    (h : noDoubleHyphen l = true)
    (hhd : a = '-' → l.head? ≠ some '-') : noDoubleHyphen (a :: l) = true := by
  cases l with
  | nil => rfl
  | cons b t =>
    simp only [noDoubleHyphen, Bool.and_eq_true]
    refine ⟨?_, h⟩
    by_cases ha : a = '-'
    · have hb : b ≠ '-' := by simpa using hhd ha
      simp [hb]
    · simp [ha]

theorem collapseRunsAux_hyphen_ok :
    ∀ (l : List Char) (prev : Bool),
      noDoubleHyphen (collapseRunsAux isHyphen '-' prev l) = true ∧
      (prev = true → (collapseRunsAux isHyphen '-' prev l).head? ≠ some '-')
  | [], _ => ⟨rfl, by simp [collapseRunsAux]⟩
  | c :: cs, prev => by
    by_cases hc : isHyphen c = true
    · have ih := collapseRunsAux_hyphen_ok cs true
      cases prev with
      | true =>
        have hstep : collapseRunsAux isHyphen '-' true (c :: cs) =
            collapseRunsAux isHyphen '-' true cs := by
          rw [collapseRunsAux, if_pos hc, if_pos rfl]
        rw [hstep]
        exact ⟨ih.1, fun _ => ih.2 rfl⟩
      | false =>
        have hstep : collapseRunsAux isHyphen '-' false (c :: cs) =
            '-' :: collapseRunsAux isHyphen '-' true cs := by
          rw [collapseRunsAux, if_pos hc, if_neg (by simp)]
        rw [hstep]
        exact ⟨noDoubleHyphen_cons_of ih.1 (fun _ => ih.2 rfl),
          fun hfalse => nomatch hfalse⟩
    · have ih := collapseRunsAux_hyphen_ok cs false
      have hstep : collapseRunsAux isHyphen '-' prev (c :: cs) =
          c :: collapseRunsAux isHyphen '-' false cs := by
        rw [collapseRunsAux, if_neg hc]
      rw [hstep]
      have hcne : c ≠ '-' := by simpa [isHyphen] using hc
      exact ⟨noDoubleHyphen_cons_of ih.1 (fun h => absurd h hcne),
        fun _ => by simp [hcne]⟩

theorem noDoubleHyphen_dropWhile {q : Char → Bool} {l : List Char}
    (h : noDoubleHyphen l = true) : noDoubleHyphen (l.dropWhile q) = true := by
  induction l with
  | nil => simpa using h
  | cons d ds ih =>
    rw [List.dropWhile_cons]
    split
    · exact ih (noDoubleHyphen_tail h)
    · exact h

theorem mem_dropTrailing {p : Char → Bool} {l : List Char} {c : Char}
    (h : c ∈ dropTrailing p l) : c ∈ l := by
  induction l with
  | nil => simpa [dropTrailing] using h
  | cons d ds ih =>
    simp only [dropTrailing] at h
    split at h
    · simp at h
    · rcases List.mem_cons.mp h with h' | h'
      · exact h' ▸ List.mem_cons_self _ _
      · exact List.mem_cons_of_mem d (ih h')

theorem dropTrailing_eq_nil_or_cons (p : Char → Bool) (d : Char)
    (ds : List Char) :
    dropTrailing p (d :: ds) = [] ∨
      ∃ t, dropTrailing p (d :: ds) = d :: t := by
  simp only [dropTrailing]
  split
  · exact Or.inl rfl
  · exact Or.inr ⟨_, rfl⟩

theorem noDoubleHyphen_dropTrailing {p : Char → Bool} {l : List Char}
    (h : noDoubleHyphen l = true) :
    noDoubleHyphen (dropTrailing p l) = true := by
  induction l with
  | nil => simpa [dropTrailing] using h
  | cons d ds ih =>
    simp only [dropTrailing]
    split
    · rfl
    · apply noDoubleHyphen_cons_of (ih (noDoubleHyphen_tail h))
      intro hd
      cases ds with
      | nil => simp [dropTrailing]
      | cons e es =>
        rcases dropTrailing_eq_nil_or_cons p e es with hnil | ⟨t, ht⟩
        · rw [hnil]; simp
        · rw [ht]
          have he : e ≠ '-' := by
            subst hd
            simp only [noDoubleHyphen, Bool.and_eq_true] at h
            intro hee
            subst hee
            simpa using h.1
          simp [he]

theorem head?_dropWhile_not {q : Char → Bool} {l : List Char} {c : Char}
    (h : (l.dropWhile q).head? = some c) : q c = false := by
  induction l with
  | nil => simp at h
  | cons d ds ih =>
    rw [List.dropWhile_cons] at h
    split at h
    · exact ih h
    · next hq =>
      simp only [List.head?_cons, Option.some.injEq] at h
      subst h
      simpa using hq

theorem getLast?_dropTrailing {p : Char → Bool} {l : List Char} {c : Char}
    (h : (dropTrailing p l).getLast? = some c) : p c = false := by
  induction l with
  | nil => simp [dropTrailing] at h
  | cons d ds ih =>
    simp only [dropTrailing] at h
    split at h
    · simp at h
    · next hcond =>
      cases hr : dropTrailing p ds with
      | nil =>
        rw [hr] at h hcond
        simp only [List.getLast?_singleton, Option.some.injEq] at h
        subst h
        simpa using fun hp => hcond ⟨rfl, hp⟩
      | cons e t =>
        rw [hr, List.getLast?_cons_cons] at h
        exact ih (by rw [hr]; exact h)

theorem head?_dropTrailing {p : Char → Bool} {l : List Char} {c : Char}
    (h : (dropTrailing p l).head? = some c) : l.head? = some c := by
  cases l with
  | nil => simp [dropTrailing] at h
  | cons d ds =>
    rcases dropTrailing_eq_nil_or_cons p d ds with hnil | ⟨t, ht⟩
    · rw [hnil] at h; simp at h
    · rw [ht] at h
      simpa using h

/-- Shape of the shared final stage (hyphen-run collapse followed by
hyphen trimming), for an arbitrary input list. -/
theorem hyphenStage_shape (l : List Char) :
    (∀ c ∈ trimHyphens (collapseRuns isHyphen '-' l),
        c = '-' ∨ (c ∈ l ∧ isHyphen c = false)) ∧
    noDoubleHyphen (trimHyphens (collapseRuns isHyphen '-' l)) = true ∧
    (trimHyphens (collapseRuns isHyphen '-' l)).head? ≠ some '-' ∧
    (trimHyphens (collapseRuns isHyphen '-' l)).getLast? ≠ some '-' := by
  simp only [trimHyphens, collapseRuns]
  have hnd := (collapseRunsAux_hyphen_ok l false).1
  refine ⟨?_, ?_, ?_, ?_⟩
  · intro c hc
    exact mem_collapseRunsAux l false c
      (mem_of_mem_dropWhile (mem_dropTrailing hc))
  · exact noDoubleHyphen_dropTrailing (noDoubleHyphen_dropWhile hnd)
  · intro hh
    have h2 := head?_dropWhile_not (head?_dropTrailing hh)
    simp [isHyphen] at h2
  · intro hh
    have h2 := getLast?_dropTrailing hh
    simp [isHyphen] at h2

/-- The AddProduct `slugify` always emits a well-shaped slug over
`[a-z0-9-]`. -/
theorem slugify_shape (s : String) : slugShape isSlugChar (slugify s) = true := by
  have hmem : ∀ c ∈ collapseRuns isJsSpace '-'
      ((nfdStrip ((trimChars s.data).map jsToLower)).filter isSlugKeep),
      isSlugChar c = true := by
    intro c hc
    simp only [collapseRuns] at hc
    rcases mem_collapseRunsAux _ false c hc with h | ⟨hm, hsp⟩
    · subst h; decide
    · have hk : isSlugKeep c = true := List.of_mem_filter hm
      simp only [isSlugKeep, Bool.or_eq_true] at hk
      simp only [isSlugChar, Bool.or_eq_true]
      rcases hk with ((h' | h') | h') | h'
      · exact Or.inl (Or.inl h')
      · exact Or.inl (Or.inr h')
      · rw [hsp] at h'; exact absurd h' (by decide)
      · exact Or.inr h'
  have key := hyphenStage_shape (collapseRuns isJsSpace '-'
    ((nfdStrip ((trimChars s.data).map jsToLower)).filter isSlugKeep))
  have hdata : (slugify s).data = trimHyphens (collapseRuns isHyphen '-'
      (collapseRuns isJsSpace '-'
        ((nfdStrip ((trimChars s.data).map jsToLower)).filter isSlugKeep))) :=
    rfl
  simp only [slugShape, Bool.and_eq_true, List.all_eq_true, bne_iff_ne,
    ne_eq, hdata]
  refine ⟨⟨⟨?_, key.2.1⟩, key.2.2.1⟩, key.2.2.2⟩
  intro c hc
  rcases key.1 c hc with h | ⟨hm, -⟩
  · subst h; decide
  · exact hmem c hm

/-- The admin "Auto" `slugify` always emits a well-shaped slug over
`[a-z0-9_-]`. -/
theorem adminSlugify_shape (s : String) :
    slugShape isAdminSlugChar (adminSlugify s) = true := by
  have hmem : ∀ c ∈ (collapseRuns isJsSpace '-'
      ((trimChars s.data).map jsToLower)).filter isWordOrHyphen,
      isAdminSlugChar c = true := by
    intro c hc
    have hw : isWordOrHyphen c = true := List.of_mem_filter hc
    have hm : c ∈ collapseRuns isJsSpace '-' ((trimChars s.data).map jsToLower) :=
      List.mem_of_mem_filter hc
    simp only [collapseRuns] at hm
    rcases mem_collapseRunsAux _ false c hm with h | ⟨hm', -⟩
    · subst h; decide
    · rcases List.mem_map.mp hm' with ⟨x, -, rfl⟩
      exact isAdminSlugChar_of_isWordOrHyphen hw (jsToLower_not_upper x)
  have key := hyphenStage_shape ((collapseRuns isJsSpace '-'
    ((trimChars s.data).map jsToLower)).filter isWordOrHyphen)
  have hdata : (adminSlugify s).data = trimHyphens (collapseRuns isHyphen '-'
      ((collapseRuns isJsSpace '-'
        ((trimChars s.data).map jsToLower)).filter isWordOrHyphen)) := rfl
  simp only [slugShape, Bool.and_eq_true, List.all_eq_true, bne_iff_ne,
    ne_eq, hdata]
  refine ⟨⟨⟨?_, key.2.1⟩, key.2.2.1⟩, key.2.2.2⟩
  intro c hc
  rcases key.1 c hc with h | ⟨hm, -⟩
  · subst h; decide
  · exact hmem c hm

/-- C5 (counterexample): the claim asserts every slug generator the
program exposes emits only lowercase letters, digits and hyphens; the
admin Products "Auto" generator keeps underscores (`\w` includes `_`), so
`adminSlugify "a_b" = "a_b"`, which violates the claimed character set. -/
theorem slug_charset_counterexample :
    adminSlugify "a_b" = "a_b" ∧
    slugShape isSlugChar (adminSlugify "a_b") = false := by
  constructor
  · decide
  · decide

/-- C5 (amended): the AddProduct `slugify` satisfies the claimed shape
(only `[a-z0-9]` and single hyphens, none leading or trailing) and maps
"  Café Latte!! " to "cafe-latte"; the admin Products "Auto" generator
satisfies the same shape over the larger class `[a-z0-9_-]` (underscores
kept), and, having no diacritic-stripping stage, maps "  Café Latte!! "
to "caf-latte". -/
theorem slug_generators_shape :
    (∀ s, slugShape isSlugChar (slugify s) = true) ∧
    slugify "  Café Latte!! " = "cafe-latte" ∧
    (∀ s, slugShape isAdminSlugChar (adminSlugify s) = true) ∧
    adminSlugify "  Café Latte!! " = "caf-latte" :=
  ⟨slugify_shape, by decide, adminSlugify_shape, by decide⟩

/-! ### The pipeline is the identity on already-canonical slugs -/

theorem collapseRunsAux_id_of_not {p : Char → Bool} {r : Char} :
    ∀ (l : List Char) (b : Bool), (∀ c ∈ l, p c = false) →
      collapseRunsAux p r b l = l
  | [], _, _ => rfl
  | c :: cs, b, h => by
    have hc : p c = false := h c (List.mem_cons_self _ _)
    rw [collapseRunsAux, if_neg (by simp [hc]),
      collapseRunsAux_id_of_not cs false
        (fun d hd => h d (List.mem_cons_of_mem c hd))]

theorem collapseRunsAux_hyphen_id :
    ∀ (l : List Char), noDoubleHyphen l = true →
      collapseRunsAux isHyphen '-' false l = l ∧
      (l.head? ≠ some '-' → collapseRunsAux isHyphen '-' true l = l)
  | [], _ => ⟨rfl, fun _ => rfl⟩
  | c :: cs, h => by
    have ih := collapseRunsAux_hyphen_id cs (noDoubleHyphen_tail h)
    by_cases hc : c = '-'
    · subst hc
      have hcs : cs.head? ≠ some '-' := by
        cases cs with
        | nil => simp
        | cons e t =>
          simp only [noDoubleHyphen, Bool.and_eq_true] at h
          have he : e ≠ '-' := by
            intro hee
            subst hee
            simpa using h.1
          simpa using he
      constructor
      · rw [collapseRunsAux, if_pos (by simp [isHyphen]), if_neg (by simp),
          ih.2 hcs]
      · intro hh
        exact absurd rfl hh
    · have hstep : ∀ b, collapseRunsAux isHyphen '-' b (c :: cs) =
          c :: collapseRunsAux isHyphen '-' false cs := fun b => by
        rw [collapseRunsAux, if_neg (by simp [isHyphen, hc])]
      exact ⟨by rw [hstep, ih.1], fun _ => by rw [hstep, ih.1]⟩

theorem dropWhile_id_of_all {q : Char → Bool} {l : List Char}
    (h : ∀ c ∈ l, q c = false) : l.dropWhile q = l := by
  cases l with
  | nil => rfl
  | cons c cs =>
    rw [List.dropWhile_cons, if_neg (by simp [h c (List.mem_cons_self c cs)])]

theorem dropWhile_id_of_head {q : Char → Bool} {l : List Char}
    (h : ∀ x, l.head? = some x → q x = false) : l.dropWhile q = l := by
  cases l with
  | nil => rfl
  | cons c cs =>
    have hc := h c rfl
    rw [List.dropWhile_cons, if_neg (by simp [hc])]

theorem dropTrailing_id_of_getLast {p : Char → Bool} :
    ∀ (l : List Char), (∀ x, l.getLast? = some x → p x = false) →
      dropTrailing p l = l
  | [], _ => rfl
  | c :: cs, h => by
    cases cs with
    | nil =>
      have hc : p c = false := h c rfl
      simp [dropTrailing, hc]
    | cons d ds =>
      have ih := dropTrailing_id_of_getLast (d :: ds)
        (fun x hx => h x (by rw [List.getLast?_cons_cons]; exact hx))
      show (if dropTrailing p (d :: ds) = [] ∧ p c = true then []
        else c :: dropTrailing p (d :: ds)) = c :: d :: ds
      rw [ih, if_neg (by simp)]

theorem trimChars_id {l : List Char} (h : ∀ c ∈ l, isJsSpace c = false) :
    trimChars l = l := by
  unfold trimChars
  rw [dropWhile_id_of_all h,
    dropWhile_id_of_all (fun c hc => h c (List.mem_reverse.mp hc)),
    List.reverse_reverse]

theorem map_id_of_fixed {f : Char → Char} {l : List Char}
    (h : ∀ c ∈ l, f c = c) : l.map f = l := by
  induction l with
  | nil => rfl
  | cons c cs ih =>
    rw [List.map_cons, h c (List.mem_cons_self _ _),
      ih (fun d hd => h d (List.mem_cons_of_mem c hd))]

/-- On a string that already has the canonical slug shape, every stage of
the AddProduct pipeline is the identity. -/
theorem slugify_id_of_shape {t : String}
    (h : slugShape isSlugChar t = true) : slugify t = t := by
  simp only [slugShape, Bool.and_eq_true, List.all_eq_true, bne_iff_ne,
    ne_eq] at h
  obtain ⟨⟨⟨hall, hnd⟩, hhd⟩, hlast⟩ := h
  have hsp : ∀ c ∈ t.data, isJsSpace c = false := fun c hc =>
    isJsSpace_eq_false_of_isSlugChar (hall c hc)
  have h1 : trimChars t.data = t.data := trimChars_id hsp
  have h2 : t.data.map jsToLower = t.data :=
    map_id_of_fixed (fun c hc => jsToLower_fixed (hall c hc))
  have h3 : nfdStrip t.data = t.data := by
    unfold nfdStrip
    rw [map_id_of_fixed (fun c hc => stripDiacriticLatin1_fixed (hall c hc)),
      List.filter_eq_self.mpr]
    intro c hc
    simp [isCombiningMark_eq_false_of_isSlugChar (hall c hc)]
  have h4 : t.data.filter isSlugKeep = t.data :=
    List.filter_eq_self.mpr (fun c hc => isSlugKeep_of_isSlugChar (hall c hc))
  have h5 : collapseRuns isJsSpace '-' t.data = t.data := by
    simp only [collapseRuns]
    exact collapseRunsAux_id_of_not t.data false hsp
  have h6 : collapseRuns isHyphen '-' t.data = t.data := by
    simp only [collapseRuns]
    exact (collapseRunsAux_hyphen_id t.data hnd).1
  have h7 : trimHyphens t.data = t.data := by
    unfold trimHyphens
    rw [dropWhile_id_of_head (q := isHyphen) ?_]
    · apply dropTrailing_id_of_getLast
      intro x hx
      have hxne : x ≠ '-' := fun he => hlast (he ▸ hx)
      simp [isHyphen, hxne]
    · intro x hx
      have hxne : x ≠ '-' := fun he => hhd (he ▸ hx)
      simp [isHyphen, hxne]
  show String.mk (slugCore (nfdStrip ((trimChars t.data).map jsToLower))) = t
  rw [h1, h2, h3]
  unfold slugCore
  rw [h4, h5, h6, h7]

/-- C7: `slugify` is idempotent: applying it to its own output changes
nothing, because that output is already in canonical slug shape. -/
theorem slugify_idempotent (s : String) : slugify (slugify s) = slugify s :=
  slugify_id_of_shape (slugify_shape s)

/-! ### Slug existence check -/

/-- C6: when the Firestore query throws, `checkSlugExists` reports the
slug as taken (`true`) rather than available — the deliberate fail-closed
bias — and, being a total `Bool`-valued function of the collaborator
outcome, never propagates the error to its caller. -/
theorem checkSlugExists_fail_closed (fetch : String → Except Unit Bool)
    (slug : String) (hne : slug ≠ "") (herr : fetch slug = .error ()) :
    (checkSlugExists fetch slug).1 = true := by
  simp [checkSlugExists, hne, herr]

/-- Witness for `checkSlugExists_fail_closed`: an always-throwing
collaborator queried for "widget". -/
theorem checkSlugExists_fail_closed_witness :
    (("widget" : String) ≠ "" ∧
      (fun _ : String => (Except.error () : Except Unit Bool)) "widget" =
        .error ()) ∧
    (checkSlugExists (fun _ => .error ()) "widget").1 = true :=
  ⟨⟨by decide, rfl⟩, checkSlugExists_fail_closed _ _ (by decide) rfl⟩

/-- C10: the empty candidate short-circuits: `checkSlugExists` returns
`false` ("available") and issues no query, for every collaborator — so
the fail-closed error bias never applies to an empty candidate. -/
theorem checkSlugExists_empty (fetch : String → Except Unit Bool) :
    checkSlugExists fetch "" = (false, false) := by
  simp [checkSlugExists]

/-! ### Divergence of the suggestion loop under a failing collaborator -/

theorem append_hyphen_ne_empty (base x : String) : base ++ "-" ++ x ≠ "" := by
  intro hx
  have hd := congrArg String.data hx
  rw [String.data_append, String.data_append,
    show ("-" : String).data = ['-'] from rfl,
    show ("" : String).data = [] from rfl] at hd
  rcases List.append_eq_nil.mp hd with ⟨h1, -⟩
  rcases List.append_eq_nil.mp h1 with ⟨-, h2⟩
  simp at h2

/-- With an always-erroring collaborator every candidate is reported
taken, so the loop never reaches its only exit: it consumes any amount of
fuel without returning. -/
theorem suggestLoop_allError_none (base ts : String) (hbase : base ≠ "") :
    ∀ (fuel : ℕ) (candidate : String) (attempt : ℕ), candidate ≠ "" →
      suggestLoop (fun _ => .error ()) base ts fuel candidate attempt = none
  | 0, _, _, _ => rfl
  | fuel + 1, candidate, attempt, hc => by
    have hex : (checkSlugExists
        (fun _ : String => (Except.error () : Except Unit Bool)) candidate).1 =
        true := checkSlugExists_fail_closed _ _ hc rfl
    rw [suggestLoop, if_neg (by simp [hex])]
    show suggestLoop (fun _ => .error ()) base ts fuel
      (if attempt + 1 > 12 then base ++ "-" ++ ts
        else base ++ "-" ++ toString (attempt + 1)) (attempt + 1) = none
    apply suggestLoop_allError_none base ts hbase fuel _ (attempt + 1)
    split
    · exact append_hyphen_ne_empty base ts
    · exact append_hyphen_ne_empty base (toString (attempt + 1))

/-- C3 (code bug): with a collaborator that errors on every query — which
the fail-closed `checkSlugExists` maps to "exists" — the suggestion loop
of `handleSuggestSlug` never meets its only exit condition: for every
fuel bound it is still running (`none`), i.e. the source's `while (true)`
loop never returns.  The claim (spec scenario 12) instead demands
termination after at most 12 numeric-suffix attempts plus one
timestamp-derived fallback, returning that fallback. -/
theorem handleSuggestSlug_diverges (fuel : ℕ) (ts : String) :
    handleSuggestSlug (fun _ => .error ()) "Widget" ts fuel = none := by
  have hbase : slugify (if ("Widget" : String) = "" then "product"
      else "Widget") = "widget" := by decide
  unfold handleSuggestSlug
  rw [hbase, if_neg (by decide)]
  exact suggestLoop_allError_none "widget" ts (by decide) fuel "widget" 0
    (by decide)

/-! ### Order status lifecycle -/

theorem statusOk_confirmOne {s : List OrderDoc} {i : ℕ}
    (h : ∀ o ∈ s, statusOk o = true) :
    ∀ o ∈ confirmOne s i, statusOk o = true := by
  intro o ho
  rcases List.mem_map.mp ho with ⟨o', ho', rfl⟩
  split
  · rfl
  · exact h o' ho'

theorem statusOk_bulk {ids : List ℕ} :
    ∀ {s : List OrderDoc}, (∀ o ∈ s, statusOk o = true) →
      ∀ o ∈ ids.foldl confirmOne s, statusOk o = true := by
  induction ids with
  | nil => intro s h o ho; exact h o ho
  | cons i is ih => intro s h o ho; exact ih (statusOk_confirmOne h) o ho

theorem statusOk_applyOp {s : List OrderDoc}
    (h : ∀ o ∈ s, statusOk o = true) (op : OrderOp) :
    ∀ o ∈ applyOp s op, statusOk o = true := by
  intro o ho
  cases op with
  | create i =>
    rcases List.mem_append.mp ho with h' | h'
    · exact h o h'
    · simp only [List.mem_singleton] at h'
      subst h'
      rfl
  | confirm i => exact statusOk_confirmOne h o ho
  | bulkConfirm ids => exact statusOk_bulk h o ho
  | delete i => exact h o (List.mem_of_mem_filter ho)

/-- C8: orders are created with status "pending", the only status ever
written afterwards is "confirmed", and hence along every reachable
sequence of create/confirm/bulk-confirm/delete operations every order's
status is "pending" or "confirmed". -/
theorem order_status_invariant :
    (∀ ops : List OrderOp, (runOps ops).all statusOk = true) ∧
    (∀ (s : List OrderDoc) (i : ℕ),
      applyOp s (.create i) = s ++ [{ id := i, status := "pending" }]) := by
  constructor
  · intro ops
    rw [List.all_eq_true]
    have main : ∀ (ops' : List OrderOp) (s : List OrderDoc),
        (∀ o ∈ s, statusOk o = true) →
        ∀ o ∈ ops'.foldl applyOp s, statusOk o = true := by
      intro ops'
      induction ops' with
      | nil => intro s h o ho; exact h o ho
      | cons op rest ih =>
        intro s h o ho
        exact ih _ (statusOk_applyOp h op) o ho
    exact fun o ho => main ops [] (by simp) o ho
  · intro s i
    rfl

/-! ### CSV field quoting -/

theorem quotedInner_escQuotes : ∀ l : List Char,
    quotedInner (escQuotes l ++ ['"']) = true
  | [] => rfl
  | c :: cs => by
    by_cases hc : c = '"'
    · subst hc
      show quotedInner ('"' :: '"' :: (escQuotes cs ++ ['"'])) = true
      rw [quotedInner]
      simpa using quotedInner_escQuotes cs
    · have hesc : escQuotes (c :: cs) = c :: escQuotes cs := by
        rw [escQuotes, if_neg hc]
      rw [hesc, List.cons_append]
      rcases hsplit : escQuotes cs ++ ['"'] with - | ⟨d, t⟩
      · exact absurd hsplit (by simp)
      · rw [quotedInner]
        have hrec := quotedInner_escQuotes cs
        rw [hsplit] at hrec
        simp [hc, hrec]

theorem quotedOk_csvQuote (s : String) : quotedOk (csvQuote s) = true := by
  show quotedInner (escQuotes s.data ++ ['"']) = true
  exact quotedInner_escQuotes s.data

/-- C9 (counterexample): the claim says every field of the generated file
is wrapped in double quotes; but the header row is emitted as the bare
`cols.join(",")`, so for an empty record set the whole file is the
unquoted header, whose first field `id` carries no quotes. -/
theorem csv_header_counterexample :
    ordersToCsv [] =
      "id,productTitle,quantity,totalWeightKg,unitPrice,grandTotal,name,phone,address,status,createdAt" ∧
    quotedOk "id" = false :=
  ⟨by decide, by decide⟩

/-- C9 (amended): every data-row field of both exports is wrapped in
double quotes with every interior double quote doubled; only the header
row's fields are emitted bare. -/
theorem csv_fields_quoted :
    (∀ (r : String → String) (c : String),
      quotedOk (ordersCsvField r c) = true) ∧
    (∀ (r : String → CsvVal) (c : String),
      quotedOk (productsCsvField r c) = true) :=
  ⟨fun r c => quotedOk_csvQuote (r c),
   fun r c => quotedOk_csvQuote (csvValString (r c))⟩

end BongoFarmers
